import Mathlib

/-!
Verification of the statement scanner and execution pipeline of the
sqltools-driver-netezza repository.

The scanner is embedded from `parseQueries` in the extension module
(src/unnamed/part_001, lines 20-104; the identical copy is in
src/unnamed/part_002) and from `NetezzaDriver.parse` in
src/src/ls/driver.ts (lines 408-497).  The two TypeScript functions run the
same character loop; `parseQueries` additionally records offsets, so the
driver's `parse` is recovered here as the projection of the offset-carrying
scan onto statement texts, followed by the driver's whole-buffer fallback.

The execution pipeline (`open`, `close`, `cancelQuery`,
`executeQueryInternal`, `query` in src/src/ls/driver.ts) is embedded as
explicit state passing over a `DriverState`; the settled value of the
`Promise.race` between `conn.execute` and the timeout timer is an explicit
`Except` input, and wall-clock readings are explicit inputs.
-/

namespace Netezza

/-- One scanned statement: `{ query, startOffset, endOffset }` as produced by
`parseQueries` (part_001, lines 80-84 and 96-100).  `query` is the trimmed
accumulated text; offsets are character offsets into the original buffer with
`endOffset` exclusive. -/
structure Stmt where
  query : List Char
  startOffset : Nat
  endOffset : Nat
deriving DecidableEq

/-- The scanner's transient context: the accumulated `currentQuery`, the
`queryStartOffset` of the statement being accumulated, the four lexical mode
flags, and the statements emitted so far (part_001, lines 21-27). -/
structure ScanState where
  currentQuery : List Char
  queryStartOffset : Nat
  inSingleQuote : Bool
  inDoubleQuote : Bool
  inLineComment : Bool
  inBlockComment : Bool
  out : List Stmt
deriving DecidableEq

/-- JavaScript `String.prototype.trim`: drop whitespace from both ends.
`Char.isWhitespace` covers space, tab, carriage return and newline, which is
the whitespace alphabet relevant to this code base. -/
def trimL (l : List Char) : List Char :=
  ((l.dropWhile Char.isWhitespace).reverse.dropWhile Char.isWhitespace).reverse

/-- One iteration of the scanning loop (part_001 lines 29-92; identically
driver.ts lines 419-486).  `i` is the loop index, `c` the current character,
`nextChar` the one-character lookahead (`none` past the end, matching the
TypeScript `''` sentinel which compares unequal to every character).  Returns
the updated state and whether the lookahead character was also consumed (the
`i++; continue` cases).  The two quote-toggle assignments and the semicolon
test mirror the TypeScript fall-through: the semicolon test reads the flags
as updated by the quote block of the same iteration. -/
def scanStep (st : ScanState) (i : Nat) (c : Char) (nextChar : Option Char) :
    ScanState × Bool :=
  if !st.inSingleQuote && !st.inDoubleQuote && !st.inBlockComment &&
      c == '-' && nextChar == some '-' then
    ({ st with inLineComment := true, currentQuery := st.currentQuery ++ [c] }, false)
  else if st.inLineComment && c == '\n' then
    ({ st with inLineComment := false, currentQuery := st.currentQuery ++ [c] }, false)
  else if !st.inSingleQuote && !st.inDoubleQuote && !st.inLineComment &&
      c == '/' && nextChar == some '*' then
    ({ st with inBlockComment := true, currentQuery := st.currentQuery ++ [c] }, false)
  else if st.inBlockComment && c == '*' && nextChar == some '/' then
    ({ st with inBlockComment := false, currentQuery := st.currentQuery ++ [c, '/'] }, true)
  else if !st.inLineComment && !st.inBlockComment && c == '\'' && !st.inDoubleQuote &&
      st.inSingleQuote && nextChar == some '\'' then
    ({ st with currentQuery := st.currentQuery ++ [c, '\''] }, true)
  else if !st.inLineComment && !st.inBlockComment && c == '"' && !st.inSingleQuote &&
      st.inDoubleQuote && nextChar == some '"' then
    ({ st with currentQuery := st.currentQuery ++ [c, '"'] }, true)
  else
    let newInSingleQuote :=
      if !st.inLineComment && !st.inBlockComment && c == '\'' && !st.inDoubleQuote then
        !st.inSingleQuote
      else st.inSingleQuote
    let newInDoubleQuote :=
      if !st.inLineComment && !st.inBlockComment && c == '"' && !st.inSingleQuote then
        !st.inDoubleQuote
      else st.inDoubleQuote
    if c == ';' && !newInSingleQuote && !newInDoubleQuote &&
        !st.inLineComment && !st.inBlockComment then
      let trimmed := trimL (st.currentQuery ++ [c])
      ({ st with
          currentQuery := [],
          queryStartOffset := i + 1,
          inSingleQuote := newInSingleQuote,
          inDoubleQuote := newInDoubleQuote,
          out := if trimmed.length > 0 then
              st.out ++ [⟨trimmed, st.queryStartOffset, i + 1⟩]
            else st.out }, false)
    else
      ({ st with
          inSingleQuote := newInSingleQuote,
          inDoubleQuote := newInDoubleQuote,
          currentQuery := st.currentQuery ++ [c] }, false)

/-- The scanning loop over the remaining input, followed by the final
emission of any accumulated non-whitespace text (part_001 lines 94-101).
`text` is the whole original buffer (used for the final `endOffset`,
`text.length`); `i` is the index of the first character of the remaining
suffix.  The `(st', true)` / `[]` branch is unreachable: `scanStep` only
reports a skip when the lookahead character exists. -/
def scanAux (text : List Char) (st : ScanState) (i : Nat) : List Char → List Stmt
  | [] =>
    let trimmed := trimL st.currentQuery
    if trimmed.length > 0 then
      st.out ++ [⟨trimmed, st.queryStartOffset, text.length⟩]
    else st.out
  | c :: rest =>
    match scanStep st i c rest.head? with
    | (st', false) => scanAux text st' (i + 1) rest
    | (st', true) =>
      match rest with
      | [] => st'.out
      | _ :: rest' => scanAux text st' (i + 2) rest'

/-- `parseQueries(text)` of src/unnamed/part_001 lines 20-104: scan the
buffer into offset-carrying statements. -/
def parseQueries (text : List Char) : List Stmt :=
  scanAux text ⟨[], 0, false, false, false, false, []⟩ 0 text

/-- `NetezzaDriver.parse` of src/src/ls/driver.ts lines 408-497: the same
scan projected onto statement texts, falling back to the whole buffer when
no statement was produced (line 496). -/
def parse (query : List Char) : List (List Char) :=
  let queries := (parseQueries query).map (fun s => s.query)
  if queries.length > 0 then queries else [query]

/-- String-level view of `parse`, for readability of concrete statements. -/
def parseS (query : String) : List String :=
  (parse query.toList).map (fun l => String.mk l)

/-- The cursor resolver of the `executeQueryAtCursor` command
(src/unnamed/part_001, lines 222-237): the first scanned statement whose
`[startOffset, endOffset]` range (both ends inclusive) contains the cursor
offset, falling back to the first statement of the list. -/
def resolveStmt (stmts : List Stmt) (cursorOffset : Nat) : Option Stmt :=
  match stmts.find? (fun s =>
      decide (s.startOffset ≤ cursorOffset) && decide (cursorOffset ≤ s.endOffset)) with
  | some s => some s
  | none => stmts.head?

/-- The buffer slice `text[a:b]` (half-open character offsets). -/
def sliceL (l : List Char) (a b : Nat) : List Char :=
  (l.drop a).take (b - a)

/-- The offset ranges of a statement list form an unbroken chain from `a`
to `b`: each statement starts where the previous one ended (the first at
`a`), every range has `startOffset ≤ endOffset`, and the last range ends at
`b`.  This is the precise form of "monotonically non-decreasing and
non-overlapping" that the scan maintains. -/
def chained : Nat → List Stmt → Nat → Prop
  | a, [], b => a = b
  | a, s :: rest, b => s.startOffset = a ∧ a ≤ s.endOffset ∧ chained s.endOffset rest b

/-- Concatenation of the buffer slices of all statements, in order. -/
def joinSlices (text : List Char) (out : List Stmt) : List Char :=
  (out.map (fun s => sliceL text s.startOffset s.endOffset)).flatten

/-! ## Execution pipeline (src/src/ls/driver.ts)

State fields of the driver that the claims touch: `currentCatalog`
(driver.ts line 42), whether a connection is open (`connection` and
`netezzaConnection`, both set and cleared together, modeled as one flag),
and the size of the `runningQueries` bookkeeping set (line 45).  Transport
effects are explicit inputs: whether a fresh `conn.connect()` would succeed,
the settled value of the `Promise.race` between `conn.execute(query)` and
the timeout timer, and wall-clock elapsed-time readings. -/

/-- Connection settings the embedded code reads (`this.credentials`).
`pageSize` and `previewLimit` use `0` for the JavaScript falsy "unset". -/
structure Credentials where
  database : String
  pageSize : Nat
  previewLimit : Nat
deriving DecidableEq

/-- Driver state (driver.ts lines 42-47). -/
structure DriverState where
  currentCatalog : Option String
  connOpen : Bool
  runningQueries : Nat
deriving DecidableEq

/-- `open()` (driver.ts lines 52-106): return at once if a connection is
already open; otherwise connect (which may fail, the only throwing path of
the pipeline) and set `currentCatalog` to the configured database (line
102).  `connectOk` is whether the transport-level `conn.connect()` would
succeed. -/
def openDriver (creds : Credentials) (connectOk : Bool) (st : DriverState) :
    Except String DriverState :=
  if st.connOpen then .ok st
  else if connectOk then
    .ok { st with connOpen := true, currentCatalog := some creds.database }
  else .error "Connection failed"

/-- `close()` (driver.ts lines 111-126): a no-op when no connection exists;
otherwise the connection fields are nulled in the `finally` block, with any
error from the transport close swallowed.  `currentCatalog` is not touched. -/
def close (st : DriverState) : DriverState :=
  if !st.connOpen then st
  else { st with connOpen := false }

/-- `cancelQuery()` (driver.ts lines 369-381): return at once when no query
is tracked as running; otherwise close the connection and clear the
bookkeeping set.  Since `close` swallows transport errors, the
`Failed to cancel query` rethrow is unreachable and the operation is total. -/
def cancelQuery (st : DriverState) : DriverState :=
  if st.runningQueries == 0 then st
  else { close st with runningQueries := 0 }

/-- A character of the regex class `\w`: `[A-Za-z0-9_]`. -/
def isWordChar (c : Char) : Bool := c.isAlphanum || c == '_'

/-- Match a literal pattern case-insensitively at the front of the input,
returning the remainder. -/
def dropCaseless : List Char → List Char → Option (List Char)
  | [], l => some l
  | _ :: _, [] => none
  | p :: ps, c :: cs => if c.toLower == p.toLower then dropCaseless ps cs else none

/-- Match `\s+` at the front of the input: at least one whitespace
character, consumed greedily. -/
def dropSpaces1 : List Char → Option (List Char)
  | [] => none
  | c :: cs =>
    if c.isWhitespace then some (cs.dropWhile Char.isWhitespace) else none

/-- `query.trim().match(/^SET\s+CATALOG\s+(\w+)/i)` (driver.ts line 152):
the captured identifier, or `none` when the statement is not a
catalog-establishing one. -/
def matchSetCatalog (query : List Char) : Option (List Char) :=
  match dropCaseless "SET".toList (trimL query) with
  | none => none
  | some r1 =>
    match dropSpaces1 r1 with
    | none => none
    | some r2 =>
      match dropCaseless "CATALOG".toList r2 with
      | none => none
      | some r3 =>
        match dropSpaces1 r3 with
        | none => none
        | some r4 =>
          let captured := r4.takeWhile isWordChar
          if captured.length > 0 then some captured else none

/-- `generateSetCatalogQuery` (src/unnamed/part_004 lines 22-24), the
statement text the explicit catalog-switch command sends through the
pipeline. -/
def generateSetCatalogQuery (catalog : String) : String :=
  s!"SET CATALOG {catalog};"

/-- A row of a native response: a JavaScript object as an ordered list of
key/value pairs (values rendered as strings; only keys and list structure
matter to the embedded code). -/
abbrev Row := List (String × String)

/-- A non-null native response from `conn.execute`, as the shape-sniffing
in driver.ts lines 180-201 distinguishes it: a `columns` array (with
optional `rows`), a bare row array, a `fields` array (with optional
`rows`), or none of those.  Column descriptors are carried as their `name`
(the code reads `c.name || c`).  `rowCount` models the optional
`data.rowCount` property (line 230). -/
inductive RawData where
  | withColumns (columns : List String) (rows : Option (List Row)) (rowCount : Option Nat)
  | rowsArray (rows : List Row)
  | withFields (fields : List String) (rows : Option (List Row)) (rowCount : Option Nat)
  | plain (rowCount : Option Nat)
deriving DecidableEq

/-- `data.rowCount` (`none` models the JavaScript `undefined`). -/
def RawData.rowCount : RawData → Option Nat
  | .withColumns _ _ rc => rc
  | .rowsArray _ => none
  | .withFields _ _ rc => rc
  | .plain rc => rc

/-- The shape sniffing of driver.ts lines 180-201: extract `(cols, rows)`.
For a bare row array the columns are the key set of the first row. -/
def extractColsRows : RawData → List String × List Row
  | .withColumns cols rows _ => (cols, rows.getD [])
  | .rowsArray rows =>
    ((match rows with
      | [] => []
      | r :: _ => r.map (fun kv => kv.1)), rows)
  | .withFields fields rows _ => (fields, rows.getD [])
  | .plain _ => ([], [])

/-- A thrown failure from execution: `err.message` plus the optional
Netezza diagnostic fields read in driver.ts lines 278-292 (`none` models an
absent or falsy field). -/
structure QErr where
  message : String
  code : Option String
  detail : Option String
  hint : Option String
  position : Option String
  whereInfo : Option String
deriving DecidableEq

/-- The fields of the SQLTools result record (`NSDatabase.IResult`) that
the embedded code constructs and the claims mention.  `connId`,
`requestId` and the freshly generated `resultId` are omitted: they carry no
information about the execution outcome.  `error` is `false` where the code
leaves the field unset. -/
structure IResult where
  cols : List String
  messages : List String
  error : Bool
  query : List Char
  results : List Row
deriving DecidableEq

/-- `query.replace(/\s+/g, ' ')`: collapse every maximal whitespace run to
one space (the single space is produced at the last character of the run). -/
def collapseWS : List Char → List Char
  | [] => []
  | c :: cs =>
    if c.isWhitespace then
      match cs with
      | [] => [' ']
      | d :: _ => if d.isWhitespace then collapseWS cs else ' ' :: collapseWS cs
    else c :: collapseWS cs

/-- The display normalization `query.replace(/\s+/g, ' ').trim()`
(driver.ts lines 211 and 258). -/
def normalizeQuery (q : List Char) : String :=
  String.mk (trimL (collapseWS q))

/-- `query.trim().toUpperCase().startsWith('SELECT')` (driver.ts line 229). -/
def startsWithSelect (q : List Char) : Bool :=
  List.isPrefixOf "SELECT".toList ((trimL q).map Char.toUpper)

/-- Whether one character list occurs inside another
(`String.prototype.includes`). -/
def listHasInfix (pat : List Char) : List Char → Bool
  | [] => pat.isEmpty
  | c :: cs => List.isPrefixOf pat (c :: cs) || listHasInfix pat cs

/-- `err.message.includes('timeout')` (driver.ts line 270). -/
def mentionsTimeout (msg : String) : Bool :=
  listHasInfix "timeout".toList msg.toList

/-- The settled value of `Promise.race([queryPromise, timeoutPromise])`:
either the native response (possibly null) or a thrown failure (a database
error, a transport error, or the timer's timeout error). -/
abbrev Outcome := Except QErr (Option RawData)

/-- `executeQueryInternal` (driver.ts lines 144-309).  The leading
`await this.open()` sits outside the `try`, so only a failed initial
connection can escape as `.error`.  The `SET CATALOG` detection (lines
151-157) updates `currentCatalog` before execution, whatever the outcome.
On a successful race the response is normalized into one result record
(zero records when the response is null, lines 176-178); on a thrown
failure the catch block (lines 246-308) builds one error-flagged record
instead of re-throwing.  The `runningQueries` set gains the execution
promise before the race and loses it after; on the throwing path the
`delete` is skipped. -/
def executeQueryInternal (creds : Credentials) (connectOk : Bool)
    (st : DriverState) (query : List Char) (timeoutMs : Nat)
    (outcome : Outcome) (elapsedTime : Nat) :
    Except String (DriverState × List IResult) :=
  match openDriver creds connectOk st with
  | .error e => .error e
  | .ok st1 =>
    let st2 :=
      match matchSetCatalog query with
      | some newCatalog => { st1 with currentCatalog := some (String.mk newCatalog) }
      | none => st1
    match outcome with
    | .ok none => .ok (st2, [])
    | .ok (some data) =>
      let colsRows := extractColsRows data
      let cols := colsRows.1
      let rows0 := colsRows.2
      let catalogMsgs : List String :=
        match st2.currentCatalog with
        | some cat => [s!"Database: {cat}"]
        | none => []
      let normalized := normalizeQuery query
      let baseMsgs := catalogMsgs ++
        [s!"Query: {normalized}", s!"Elapsed time: {elapsedTime}ms"]
      let pageSize := if creds.pageSize == 0 then 50 else creds.pageSize
      let maxRows := if creds.previewLimit == 0 then pageSize else creds.previewLimit
      let totalRows := rows0.length
      let isLimited := decide (0 < maxRows) && decide (maxRows < rows0.length)
      let rows := if isLimited then rows0.take maxRows else rows0
      let limitMsgs :=
        if isLimited then
          baseMsgs ++ [s!"Query returned {totalRows} rows. Showing first {maxRows} rows. Adjust 'Show records default limit' in connection settings to change this limit."]
        else baseMsgs
      let finalMsgs :=
        if !startsWithSelect query then
          match data.rowCount with
          | some rc => limitMsgs ++ [s!"{rc} rows affected"]
          | none => limitMsgs
        else limitMsgs
      .ok (st2,
        [{ cols := cols, messages := finalMsgs, error := false,
           query := query, results := rows }])
    | .error err =>
      let catalogMsgs : List String :=
        match st2.currentCatalog with
        | some cat => [s!"Database: {cat}"]
        | none => []
      let normalized := normalizeQuery query
      let baseMsgs := catalogMsgs ++
        [s!"Query: {normalized}", s!"Elapsed time: {elapsedTime}ms",
         "═══════════════════════════════════════════",
         "❌ QUERY FAILED",
         "═══════════════════════════════════════════"]
      let errMessage := err.message
      let detailMsgs :=
        if mentionsTimeout err.message then
          ["Error Type: Query Timeout",
           s!"Details: Query execution exceeded the timeout limit of {timeoutMs}ms",
           "Suggestion: Consider optimizing the query or increasing the timeout setting"]
        else
          [s!"Error: {errMessage}"]
          ++ (match err.code with
              | some c => [s!"Error Code: {c}"]
              | none => [])
          ++ (match err.detail with
              | some d => [s!"Details: {d}"]
              | none => [])
          ++ (match err.hint with
              | some h => [s!"Hint: {h}"]
              | none => [])
          ++ (match err.position with
              | some p => [s!"Position: {p}"]
              | none => [])
          ++ (match err.whereInfo with
              | some w => [s!"Where: {w}"]
              | none => [])
      .ok ({ st2 with runningQueries := st2.runningQueries + 1 },
        [{ cols := ["error"], messages := baseMsgs ++ detailMsgs, error := true,
           query := query, results := [] }])

/-- The sequential batch loop of `query` (driver.ts lines 332-343): execute
each parsed statement through `queryWithTimeout` (which serializes onto the
queue and runs `executeQueryInternal`), collecting every per-statement
result list in order.  Each list entry pairs a statement text with the
settled race outcome and the elapsed-time reading of that execution. -/
def runBatch (creds : Credentials) (connectOk : Bool) (timeoutMs : Nat) :
    DriverState → List (List Char × Outcome × Nat) →
    Except String (DriverState × List IResult)
  | st, [] => .ok (st, [])
  | st, (q, outcome, elapsed) :: rest =>
    match executeQueryInternal creds connectOk st q timeoutMs outcome elapsed with
    | .error e => .error e
    | .ok (st', res) =>
      match runBatch creds connectOk timeoutMs st' rest with
      | .error e => .error e
      | .ok (st'', restRes) => .ok (st'', res ++ restRes)

/-- The summary block of `query` (driver.ts lines 345-356): when the batch
produced any results, append a separator and the aggregate elapsed-time /
statement-count line to the messages of the last result. -/
def addSummary (numQueries totalElapsedTime : Nat) (results : List IResult) :
    List IResult :=
  match results.getLast? with
  | none => results
  | some lastResult =>
    results.dropLast ++
      [{ lastResult with messages := lastResult.messages ++
          ["─────────────────────────────────────────",
           s!"Total execution time for {numQueries} queries: {totalElapsedTime}ms"] }]

/-- `query` (driver.ts lines 315-363): parse the buffer; when more than one
statement was found, run them sequentially and append the summary to the
last result; otherwise execute the original buffer as a single statement.
`outcomes k` supplies the race outcome and elapsed-time reading of the
`k`-th execution; `totalElapsedTime` the wall-clock time of the whole
batch. -/
def queryDriver (creds : Credentials) (connectOk : Bool) (timeoutMs : Nat)
    (st : DriverState) (buf : List Char) (outcomes : Nat → Outcome × Nat)
    (totalElapsedTime : Nat) : Except String (DriverState × List IResult) :=
  let parsedQueries := parse buf
  if parsedQueries.length > 1 then
    match runBatch creds connectOk timeoutMs st
        (parsedQueries.enum.map (fun p => (p.2, outcomes p.1))) with
    | .error e => .error e
    | .ok (st', allResults) =>
      .ok (st', addSummary parsedQueries.length totalElapsedTime allResults)
  else
    executeQueryInternal creds connectOk st buf timeoutMs
      (outcomes 0).1 (outcomes 0).2

/-- Whether a race outcome is a thrown failure. -/
def isErrorOutcome : Outcome → Bool
  | .error _ => true
  | .ok _ => false

/-- A sample outcome assignment for concrete runs: statement 0 throws, every
later statement returns one row. -/
def sampleOutcomes : Nat → Outcome × Nat :=
  fun k =>
    if k == 0 then (.error ⟨"boom", none, none, none, none, none⟩, 3)
    else (.ok (some (.rowsArray [[("a", "1")]])), 4)

/-- The sample two-statement buffer used by concrete runs. -/
def sampleBuf : List Char := "SELECT 1; SELECT 2;".toList

/-- The number of statements the sample buffer parses into. -/
def sampleBatchLen : Nat := (parse sampleBuf).length

/-! ## The serialization chain of `queryWithTimeout` (driver.ts lines 128-142)

`queryWithTimeout` serializes submissions through a promise chain:
`this.queryQueue = this.queryQueue.then(run submission).catch(ignore)`.
Reading and reassigning `this.queryQueue` happens synchronously inside one
turn of the single-threaded event loop, so the `k`-th call to submit chains
onto the `(k-1)`-th link; submission indices below are admission order.
The `.then` callback of link `k` fires only once link `k-1` has settled,
and the `.catch(ignore)` makes a rejected link settle the chain as well, so
a failing or timed-out submission does not block its successors.

A submission `k` settles in one of two ways, mirroring
`Promise.race([queryPromise, timeoutPromise])` in `executeQueryInternal`:
`settleOk k` (the execution promise settled first — success or database
error; the transport work of `k` is over) or `settleTimeout k` (the timer
fired first; the race settles but `conn.execute` was not aborted and keeps
running against the connection until a later `execEnd k`).  Traces are
lists of such events, newest first; the step rules record exactly which
event the event loop may deliver next given the chain structure. -/

/-- Events of the execution-queue model. -/
inductive QEvent where
  | start (k : Nat)
  | settleOk (k : Nat)
  | settleTimeout (k : Nat)
  | execEnd (k : Nat)
deriving DecidableEq

/-- Submission `k`'s race has settled (its `executeQueryInternal` promise
resolved, successfully or not). -/
def settled (k : Nat) (tr : List QEvent) : Prop :=
  QEvent.settleOk k ∈ tr ∨ QEvent.settleTimeout k ∈ tr

/-- Submission `k`'s transport-level `conn.execute` has finished. -/
def transportDone (k : Nat) (tr : List QEvent) : Prop :=
  QEvent.settleOk k ∈ tr ∨ QEvent.execEnd k ∈ tr

/-- Submission `k`'s statement is executing against the shared connection:
`conn.execute(query)` has been issued and has not finished. -/
def executing (k : Nat) (tr : List QEvent) : Prop :=
  QEvent.start k ∈ tr ∧ ¬ transportDone k tr

/-- Submission `k` has been admitted and its result has not yet been
produced. -/
def inFlight (k : Nat) (tr : List QEvent) : Prop :=
  QEvent.start k ∈ tr ∧ ¬ settled k tr

instance (k : Nat) (tr : List QEvent) : Decidable (settled k tr) := by
  unfold settled; infer_instance

instance (k : Nat) (tr : List QEvent) : Decidable (transportDone k tr) := by
  unfold transportDone; infer_instance

instance (k : Nat) (tr : List QEvent) : Decidable (executing k tr) := by
  unfold executing; infer_instance

instance (k : Nat) (tr : List QEvent) : Decidable (inFlight k tr) := by
  unfold inFlight; infer_instance

/-- Valid interleavings of `n` submissions chained by `queryWithTimeout`.
`start k` fires when the previous chain link has settled (the `.then`
semantics; link `-1` is the pre-resolved `Promise.resolve()` of driver.ts
line 46, and `.catch(ignore)` lets a failed link settle the chain too).
A submission settles once, by whichever race branch fires first; after a
timeout settlement the leaked transport execution may end at any later
point.  Nothing else restricts the interleaving. -/
inductive QTrace (n : Nat) : List QEvent → Prop where
  | nil : QTrace n []
  | start {tr : List QEvent} {k : Nat} :
      k < n → QEvent.start k ∉ tr → (k = 0 ∨ settled (k - 1) tr) →
      QTrace n tr → QTrace n (QEvent.start k :: tr)
  | settleOk {tr : List QEvent} {k : Nat} :
      QEvent.start k ∈ tr → ¬ settled k tr →
      QTrace n tr → QTrace n (QEvent.settleOk k :: tr)
  | settleTimeout {tr : List QEvent} {k : Nat} :
      QEvent.start k ∈ tr → ¬ settled k tr →
      QTrace n tr → QTrace n (QEvent.settleTimeout k :: tr)
  | execEnd {tr : List QEvent} {k : Nat} :
      QEvent.settleTimeout k ∈ tr → QEvent.execEnd k ∉ tr →
      QTrace n tr → QTrace n (QEvent.execEnd k :: tr)

/-! ## Helper lemmas -/

theorem trimL_eq_nil_iff {l : List Char} :
    trimL l = [] ↔ ∀ c ∈ l, c.isWhitespace := by
  unfold trimL
  rw [List.reverse_eq_nil_iff, List.dropWhile_eq_nil_iff]
  constructor
  · intro h c hc
    rcases (List.mem_append.mp
        ((List.takeWhile_append_dropWhile Char.isWhitespace l) ▸ hc)) with h1 | h1
    · exact List.mem_takeWhile_imp h1
    · exact h c (List.mem_reverse.mpr h1)
  · intro h c hc
    exact h c ((List.dropWhile_sublist _).mem (List.mem_reverse.mp hc))

theorem trimL_append_ne_nil (l : List Char) (c : Char)
    (hc : c.isWhitespace = false) : trimL (l ++ [c]) ≠ [] := by
  intro h
  have := trimL_eq_nil_iff.mp h c (by simp)
  rw [hc] at this
  exact Bool.false_ne_true this

theorem ws_beq_false (c d : Char) (h : c.isWhitespace = true)
    (hd : d.isWhitespace = false) : (c == d) = false := by
  cases hb : c == d
  · rfl
  · rw [beq_iff_eq.mp hb, hd] at h
    exact absurd h (by simp)

/-- On an all-whitespace remainder with all mode flags clear, no accumulated
output and all-whitespace accumulated text, the scan produces no statement. -/
theorem scanAux_all_ws (text : List Char) :
    ∀ (rem : List Char) (st : ScanState) (i : Nat),
    (∀ c ∈ rem, c.isWhitespace) → (∀ c ∈ st.currentQuery, c.isWhitespace) →
    st.inSingleQuote = false → st.inDoubleQuote = false →
    st.inLineComment = false → st.inBlockComment = false → st.out = [] →
    scanAux text st i rem = [] := by
  intro rem
  induction rem with
  | nil =>
    intro st i _ hcur hsq hdq hlc hbc hout
    rw [scanAux]
    simp only [trimL_eq_nil_iff.mpr hcur, List.length_nil, hout]
    simp
  | cons c rest ih =>
    intro st i hrem hcur hsq hdq hlc hbc hout
    have hwc : c.isWhitespace = true := hrem c (by simp)
    have hstep : scanStep st i c rest.head? =
        ({ st with
            inSingleQuote := st.inSingleQuote,
            inDoubleQuote := st.inDoubleQuote,
            currentQuery := st.currentQuery ++ [c] }, false) := by
      rw [scanStep]
      simp only [hsq, hdq, hlc, hbc,
        ws_beq_false c '-' hwc (by decide), ws_beq_false c '/' hwc (by decide),
        ws_beq_false c '\'' hwc (by decide), ws_beq_false c '"' hwc (by decide),
        ws_beq_false c ';' hwc (by decide)]
      simp
    rw [scanAux, hstep]
    exact ih { st with
        inSingleQuote := st.inSingleQuote,
        inDoubleQuote := st.inDoubleQuote,
        currentQuery := st.currentQuery ++ [c] } (i + 1)
      (fun d hd => hrem d (by simp [hd]))
      (by
        intro d hd
        rcases List.mem_append.mp hd with h1 | h1
        · exact hcur d h1
        · simp at h1
          exact h1 ▸ hwc)
      hsq hdq hlc hbc hout

/-! ## Claims -/

/-- C5, counterexample.  The claim states that scanning
`"-- a;\nSELECT 1;"` produces one statement whose text is `"SELECT 1;"`.
The scan indeed produces exactly one statement, but the scanner keeps
comment text in `currentQuery`, so the statement's text is the entire
input, not `"SELECT 1;"`. -/
theorem c5_comment_text_counterexample :
    parseS "-- a;\nSELECT 1;" = ["-- a;\nSELECT 1;"] ∧
    parseS "-- a;\nSELECT 1;" ≠ ["SELECT 1;"] := by
  constructor
  · rfl
  · decide

/-- C5, amended.  Scanning `"-- a;\nSELECT 1;"` produces exactly one
statement: the semicolon inside the line comment is not a boundary.  The
statement's text is the whole input `"-- a;\nSELECT 1;"` (comment text is
retained), spanning offsets 0 to 15. -/
theorem c5_comment_semicolon_ignored :
    parseQueries "-- a;\nSELECT 1;".toList =
      [⟨"-- a;\nSELECT 1;".toList, 0, 15⟩] ∧
    parseS "-- a;\nSELECT 1;" = ["-- a;\nSELECT 1;"] := by
  constructor
  · rfl
  · rfl

/-- C6, counterexample.  The claim states that an input of only whitespace
and/or comments yields zero scanned statements, and that `parse` then
returns the original buffer as its single element.  On the comment-only
input `" -- c"` the scanner yields one statement (the comment text is
accumulated and its trim is non-empty), and `parse` returns the trimmed
text `"-- c"`, not the original buffer `" -- c"`. -/
theorem c6_comment_only_counterexample :
    (parseQueries " -- c".toList).length = 1 ∧
    parseS " -- c" = ["-- c"] ∧
    parseS " -- c" ≠ [" -- c"] := by
  refine ⟨rfl, rfl, ?_⟩
  decide

/-- C6, amended.  Only for inputs consisting entirely of whitespace does the
scanner yield zero statements, and `parse` then falls back to returning the
whole original buffer as its single element (an input containing a comment
yields a statement carrying the comment text instead). -/
theorem c6_whitespace_only_fallback (l : List Char)
    (h : ∀ c ∈ l, c.isWhitespace) :
    parseQueries l = [] ∧ parse l = [l] := by
  have hq : parseQueries l = [] :=
    scanAux_all_ws l l ⟨[], 0, false, false, false, false, []⟩ 0 h
      (by intro c hc; simp at hc) rfl rfl rfl rfl rfl
  refine ⟨hq, ?_⟩
  rw [parse, hq]
  simp

/-- Witness for `c6_whitespace_only_fallback` at the whitespace-only input
`"  "`. -/
theorem c6_whitespace_only_fallback_witness :
    parseQueries "  ".toList = [] ∧ parse "  ".toList = ["  ".toList] :=
  c6_whitespace_only_fallback "  ".toList (by decide)

/-- C10.  A semicolon reached with all four mode flags clear always emits a
statement: the terminating semicolon is appended before the non-empty
check, so the trimmed text contains at least the semicolon itself and the
emission is unconditional — the scan step extends the output by exactly one
statement whatever was accumulated.  In particular `";;"` parses to two
statements, each with text `";"`. -/
theorem c10_normal_semicolon_always_emits :
    (∀ (currentQuery : List Char) (queryStartOffset : Nat) (out : List Stmt)
        (i : Nat) (nextChar : Option Char),
      (scanStep ⟨currentQuery, queryStartOffset, false, false, false, false, out⟩
          i ';' nextChar).1.out =
        out ++ [⟨trimL (currentQuery ++ [';']), queryStartOffset, i + 1⟩]) ∧
    parseS ";;" = [";", ";"] := by
  constructor
  · intro currentQuery queryStartOffset out i nextChar
    have hne : trimL (currentQuery ++ [';']) ≠ [] :=
      trimL_append_ne_nil currentQuery ';' (by decide)
    have hlen : 0 < (trimL (currentQuery ++ [';'])).length :=
      List.length_pos.mpr hne
    rw [scanStep]
    simp [hlen]
  · rfl

/-- First-match decomposition of `resolveStmt`: either no statement range
contains the cursor and the result is the head of the list, or the list
splits around the first statement whose inclusive range contains the
cursor and that statement is the result. -/
theorem resolveStmt_cases (stmts : List Stmt) (cursorOffset : Nat) :
    ((∀ s ∈ stmts,
        ¬ (s.startOffset ≤ cursorOffset ∧ cursorOffset ≤ s.endOffset)) ∧
      resolveStmt stmts cursorOffset = stmts.head?) ∨
    (∃ pre s post, stmts = pre ++ s :: post ∧
      (∀ t ∈ pre,
        ¬ (t.startOffset ≤ cursorOffset ∧ cursorOffset ≤ t.endOffset)) ∧
      (s.startOffset ≤ cursorOffset ∧ cursorOffset ≤ s.endOffset) ∧
      resolveStmt stmts cursorOffset = some s) := by
  cases hfind : stmts.find? (fun s =>
      decide (s.startOffset ≤ cursorOffset) &&
      decide (cursorOffset ≤ s.endOffset)) with
  | none =>
    left
    constructor
    · intro s hs hcontains
      have := List.find?_eq_none.mp hfind s hs
      simp [hcontains.1, hcontains.2] at this
    · rw [resolveStmt, hfind]
  | some s =>
    right
    rcases List.find?_eq_some.mp hfind with ⟨hps, pre, post, heq, hpre⟩
    refine ⟨pre, s, post, heq, ?_, ?_, ?_⟩
    · intro t ht hcontains
      have := hpre t ht
      simp [hcontains.1, hcontains.2] at this
    · constructor
      · exact of_decide_eq_true (Bool.and_elim_left hps)
      · exact of_decide_eq_true (Bool.and_elim_right hps)
    · rw [resolveStmt, hfind]

/-- C9.  For a non-empty statement list, the cursor resolver returns the
first statement whose inclusive `[startOffset, endOffset]` range contains
the cursor offset, and falls back to the first statement of the list when
no range contains it. -/
theorem c9_resolve_first_containing (stmts : List Stmt) (cursorOffset : Nat)
    (h : stmts ≠ []) :
    ((∀ s ∈ stmts,
        ¬ (s.startOffset ≤ cursorOffset ∧ cursorOffset ≤ s.endOffset)) ∧
      resolveStmt stmts cursorOffset = some (stmts.head h)) ∨
    (∃ pre s post, stmts = pre ++ s :: post ∧
      (∀ t ∈ pre,
        ¬ (t.startOffset ≤ cursorOffset ∧ cursorOffset ≤ t.endOffset)) ∧
      (s.startOffset ≤ cursorOffset ∧ cursorOffset ≤ s.endOffset) ∧
      resolveStmt stmts cursorOffset = some s) := by
  rcases resolveStmt_cases stmts cursorOffset with ⟨hall, hres⟩ | hfound
  · left
    exact ⟨hall, by rw [hres, List.head?_eq_head]⟩
  · right
    exact hfound

/-- Witness for `c9_resolve_first_containing`: on the two statements of
`"SELECT 1; SELECT 2"` with the cursor at offset 12 (inside the second
statement's range), the resolver picks the second statement. -/
theorem c9_resolve_first_containing_witness :
    ((∀ s ∈ parseQueries "SELECT 1; SELECT 2".toList,
        ¬ (s.startOffset ≤ 12 ∧ 12 ≤ s.endOffset)) ∧
      resolveStmt (parseQueries "SELECT 1; SELECT 2".toList) 12 =
        some ((parseQueries "SELECT 1; SELECT 2".toList).head (by decide))) ∨
    (∃ pre s post, parseQueries "SELECT 1; SELECT 2".toList = pre ++ s :: post ∧
      (∀ t ∈ pre, ¬ (t.startOffset ≤ 12 ∧ 12 ≤ t.endOffset)) ∧
      (s.startOffset ≤ 12 ∧ 12 ≤ s.endOffset) ∧
      resolveStmt (parseQueries "SELECT 1; SELECT 2".toList) 12 = some s) :=
  c9_resolve_first_containing (parseQueries "SELECT 1; SELECT 2".toList) 12
    (by decide)

theorem wordChar_not_ws (c : Char) (h : isWordChar c = true) :
    c.isWhitespace = false := by
  cases hw : c.isWhitespace
  · rfl
  · have : ((c = ' ' ∨ c = '\t') ∨ c = '\r') ∨ c = '\n' := by
      simpa [Char.isWhitespace] using hw
    rcases this with ((h1 | h1) | h1) | h1 <;> rw [h1] at h <;> exact absurd h (by decide)

theorem takeWhile_all_append (p : Char → Bool) (l l2 : List Char) (d : Char)
    (hall : ∀ c ∈ l, p c = true) (hd : p d = false) :
    (l ++ d :: l2).takeWhile p = l := by
  induction l with
  | nil => simp [List.takeWhile_cons, hd]
  | cons a as ih =>
    have ha : p a = true := hall a (by simp)
    simp only [List.cons_append, List.takeWhile_cons, ha, if_true]
    rw [ih (fun c hc => hall c (by simp [hc]))]

theorem dropCaseless_append (pat l l2 : List Char)
    (h : dropCaseless pat l = some []) :
    dropCaseless pat (l ++ l2) = some l2 := by
  induction pat generalizing l with
  | nil =>
    cases l with
    | nil => rfl
    | cons c cs => exact absurd h (by simp [dropCaseless])
  | cons p ps ih =>
    cases l with
    | nil => exact absurd h (by simp [dropCaseless])
    | cons c cs =>
      rw [dropCaseless] at h
      rw [List.cons_append, dropCaseless]
      by_cases hc : (c.toLower == p.toLower) = true
      · rw [hc] at h ⊢
        simp only [if_true]
        exact ih cs h
      · rw [Bool.not_eq_true] at hc
        rw [hc] at h
        simp at h

theorem trimL_no_ws_ends (c d : Char) (l : List Char)
    (hc : c.isWhitespace = false) (hd : d.isWhitespace = false) :
    trimL (c :: (l ++ [d])) = c :: (l ++ [d]) := by
  rw [trimL]
  rw [List.dropWhile_cons_of_neg (by simp [hc])]
  have h2 : (c :: (l ++ [d])).reverse = d :: (l.reverse ++ [c]) := by simp
  rw [h2, List.dropWhile_cons_of_neg (by simp [hd]), ← h2, List.reverse_reverse]

/-- Detection of the statements produced by `generateSetCatalogQuery`: for
a non-empty catalog name made of `\w` characters, the `SET CATALOG`
pattern match of the pipeline captures exactly that name. -/
theorem matchSetCatalog_generateSetCatalogQuery (name : String)
    (hw : ∀ c ∈ name.toList, isWordChar c = true) (hne : name.toList ≠ []) :
    matchSetCatalog (generateSetCatalogQuery name).toList = some name.toList := by
  cases hn : name.toList with
  | nil => exact absurd hn hne
  | cons c cs =>
    have hc : isWordChar c = true := hw c (by rw [hn]; simp)
    have hlist : (generateSetCatalogQuery name).toList =
        'S' :: 'E' :: 'T' :: ' ' :: 'C' :: 'A' :: 'T' :: 'A' :: 'L' :: 'O' :: 'G'
          :: ' ' :: (c :: cs ++ [';']) := by
      have h0 : generateSetCatalogQuery name = "SET CATALOG " ++ name ++ ";" := rfl
      rw [h0]
      have h1 : ("SET CATALOG " ++ name ++ ";").toList =
          "SET CATALOG ".toList ++ name.toList ++ ";".toList := by
        simp [String.toList, String.data_append]
      rw [h1, hn]
      rfl
    rw [matchSetCatalog, hlist]
    have htrim := trimL_no_ws_ends 'S'  ';'
      ('E' :: 'T' :: ' ' :: 'C' :: 'A' :: 'T' :: 'A' :: 'L' :: 'O' :: 'G'
        :: ' ' :: c :: cs) (by decide) (by decide)
    simp only [List.cons_append, List.nil_append] at htrim ⊢
    have hset : ∀ rest : List Char,
        dropCaseless "SET".toList ('S' :: 'E' :: 'T' :: rest) = some rest :=
      fun rest => rfl
    have hsp1 : ∀ rest : List Char,
        dropSpaces1 (' ' :: 'C' :: rest) = some ('C' :: rest) :=
      fun rest => rfl
    have hcat : ∀ rest : List Char,
        dropCaseless "CATALOG".toList
          ('C' :: 'A' :: 'T' :: 'A' :: 'L' :: 'O' :: 'G' :: rest) = some rest :=
      fun rest => rfl
    have hsp2 : dropSpaces1 (' ' :: (c :: (cs ++ [';']))) =
        some (c :: (cs ++ [';'])) := by
      rw [dropSpaces1]
      simp only [Char.isWhitespace, decide_True, if_true]
      rw [List.dropWhile_cons_of_neg (by simp [wordChar_not_ws c hc])]
      rfl
    have htake : (c :: (cs ++ [';'])).takeWhile isWordChar = c :: cs := by
      have := takeWhile_all_append isWordChar (c :: cs) [] ';'
        (fun d hd => hw d (by rw [hn]; exact hd)) (by decide)
      simpa using this
    simp only [htrim, hset, hsp1, hcat, hsp2, htake]
    simp

theorem openDriver_of_open (creds : Credentials) (connectOk : Bool)
    (st : DriverState) (h : st.connOpen = true) :
    openDriver creds connectOk st = .ok st := by
  rw [openDriver, h]
  simp

/-- C1.  Once a connection is open, every execution settles to a normal
return: the pipeline never propagates an error to its caller, and any
thrown failure (database rejection, transport failure, or timeout) is
returned as exactly one error-flagged result record. -/
theorem c1_errors_captured_as_results (creds : Credentials) (connectOk : Bool)
    (st : DriverState) (query : List Char) (timeoutMs : Nat)
    (outcome : Outcome) (elapsedTime : Nat) (h : st.connOpen = true) :
    (∃ st' res, executeQueryInternal creds connectOk st query timeoutMs
        outcome elapsedTime = .ok (st', res)) ∧
    (∀ err : QErr, outcome = .error err →
      ∃ st' r, executeQueryInternal creds connectOk st query timeoutMs
          outcome elapsedTime = .ok (st', [r]) ∧
        r.error = true ∧ r.cols = ["error"] ∧ r.results = []) := by
  have hopen := openDriver_of_open creds connectOk st h
  constructor
  · rw [executeQueryInternal, hopen]
    cases outcome with
    | ok dataOpt =>
      cases dataOpt with
      | none => exact ⟨_, _, rfl⟩
      | some data => exact ⟨_, _, rfl⟩
    | error err => exact ⟨_, _, rfl⟩
  · intro err houtcome
    rw [houtcome, executeQueryInternal, hopen]
    exact ⟨_, _, rfl, rfl, rfl, rfl⟩

/-- Witness for `c1_errors_captured_as_results` at a concrete failing
execution. -/
theorem c1_errors_captured_as_results_witness :
    (∃ st' res, executeQueryInternal ⟨"DEV", 0, 0⟩ true ⟨some "DEV", true, 0⟩
        "SELECT 1".toList 30000
        (.error ⟨"relation does not exist", some "42P01", none, none, none, none⟩)
        5 = .ok (st', res)) ∧
    (∀ err : QErr,
      (.error ⟨"relation does not exist", some "42P01", none, none, none, none⟩ :
          Outcome) = .error err →
      ∃ st' r, executeQueryInternal ⟨"DEV", 0, 0⟩ true ⟨some "DEV", true, 0⟩
          "SELECT 1".toList 30000
          (.error ⟨"relation does not exist", some "42P01", none, none, none, none⟩)
          5 = .ok (st', [r]) ∧
        r.error = true ∧ r.cols = ["error"] ∧ r.results = []) :=
  c1_errors_captured_as_results ⟨"DEV", 0, 0⟩ true ⟨some "DEV", true, 0⟩
    "SELECT 1".toList 30000
    (.error ⟨"relation does not exist", some "42P01", none, none, none, none⟩)
    5 rfl

/-- C7, counterexample.  The claim states that the catalog cell is updated
only when the `SET CATALOG` execution succeeds and is left unchanged on
failure.  Running the statement issued by the catalog-switch command
(`generateSetCatalogQuery "NEWDB"`) with a failing outcome still rewrites
the cell from `"OLDDB"` to `"NEWDB"`: the pipeline updates the cell upon
detection, before execution, and the failing execution (whose single result
is error-flagged) does not roll it back. -/
theorem c7_catalog_updated_on_failure_counterexample :
    (executeQueryInternal ⟨"DEV", 0, 0⟩ true ⟨some "OLDDB", true, 0⟩
        (generateSetCatalogQuery "NEWDB").toList 30000
        (.error ⟨"insufficient privileges", none, none, none, none, none⟩)
        5).toOption.map (fun p => (p.1.currentCatalog, p.2.map (fun r => r.error)))
      = some (some "NEWDB", [true]) ∧
    (some "NEWDB" : Option String) ≠ some "OLDDB" := by
  constructor
  · rfl
  · decide

/-- C7, amended.  The catalog-switch command issues the statement
`SET CATALOG <name>;` through the execution pipeline, and the pipeline
recognizes it; but the catalog cell is updated immediately upon detection
of the `SET CATALOG` pattern, before execution and regardless of the
execution outcome, not only on success.  Statements that do not match the
pattern leave the cell unchanged. -/
theorem c7_catalog_updated_on_detection (creds : Credentials)
    (connectOk : Bool) (st : DriverState) (q : List Char) (timeoutMs : Nat)
    (outcome : Outcome) (elapsedTime : Nat) (name : List Char)
    (h : st.connOpen = true) :
    (matchSetCatalog q = some name →
      ∃ st' res, executeQueryInternal creds connectOk st q timeoutMs
          outcome elapsedTime = .ok (st', res) ∧
        st'.currentCatalog = some (String.mk name)) ∧
    (matchSetCatalog q = none →
      ∃ st' res, executeQueryInternal creds connectOk st q timeoutMs
          outcome elapsedTime = .ok (st', res) ∧
        st'.currentCatalog = st.currentCatalog) ∧
    (∀ nm : String, (∀ c ∈ nm.toList, isWordChar c = true) → nm.toList ≠ [] →
      matchSetCatalog (generateSetCatalogQuery nm).toList = some nm.toList) := by
  have hopen := openDriver_of_open creds connectOk st h
  refine ⟨?_, ?_, fun nm hwn hnen => matchSetCatalog_generateSetCatalogQuery nm hwn hnen⟩
  · intro hm
    rw [executeQueryInternal, hopen]
    simp only [hm]
    cases outcome with
    | ok dataOpt =>
      cases dataOpt with
      | none => exact ⟨_, _, rfl, rfl⟩
      | some data => exact ⟨_, _, rfl, rfl⟩
    | error err => exact ⟨_, _, rfl, rfl⟩
  · intro hm
    rw [executeQueryInternal, hopen]
    simp only [hm]
    cases outcome with
    | ok dataOpt =>
      cases dataOpt with
      | none => exact ⟨_, _, rfl, rfl⟩
      | some data => exact ⟨_, _, rfl, rfl⟩
    | error err => exact ⟨_, _, rfl, rfl⟩

/-- Witness for `c7_catalog_updated_on_detection` at a concrete failing
`SET CATALOG` execution. -/
theorem c7_catalog_updated_on_detection_witness :
    (matchSetCatalog "SET CATALOG NEWDB;".toList = some "NEWDB".toList →
      ∃ st' res, executeQueryInternal ⟨"DEV", 0, 0⟩ true ⟨some "OLDDB", true, 0⟩
          "SET CATALOG NEWDB;".toList 30000
          (.error ⟨"insufficient privileges", none, none, none, none, none⟩)
          5 = .ok (st', res) ∧
        st'.currentCatalog = some (String.mk "NEWDB".toList)) ∧
    (matchSetCatalog "SET CATALOG NEWDB;".toList = none →
      ∃ st' res, executeQueryInternal ⟨"DEV", 0, 0⟩ true ⟨some "OLDDB", true, 0⟩
          "SET CATALOG NEWDB;".toList 30000
          (.error ⟨"insufficient privileges", none, none, none, none, none⟩)
          5 = .ok (st', res) ∧
        st'.currentCatalog = some "OLDDB") ∧
    (∀ nm : String, (∀ c ∈ nm.toList, isWordChar c = true) → nm.toList ≠ [] →
      matchSetCatalog (generateSetCatalogQuery nm).toList = some nm.toList) :=
  c7_catalog_updated_on_detection ⟨"DEV", 0, 0⟩ true ⟨some "OLDDB", true, 0⟩
    "SET CATALOG NEWDB;".toList 30000
    (.error ⟨"insufficient privileges", none, none, none, none, none⟩)
    5 "NEWDB".toList rfl

/-- C8, counterexample.  The claim states that closing the connection
(via `close` or `cancelQuery`) resets the catalog cell to unset.  Neither
operation touches `currentCatalog`: after closing a connection whose
catalog is `"X"`, the cell still holds `"X"`. -/
theorem c8_close_keeps_catalog_counterexample :
    (close ⟨some "X", true, 0⟩).currentCatalog = some "X" ∧
    (cancelQuery ⟨some "X", true, 3⟩).currentCatalog = some "X" ∧
    (some "X" : Option String) ≠ none := by
  refine ⟨rfl, rfl, ?_⟩
  decide

/-- C8, amended.  `close` and `cancelQuery` leave the catalog cell
unchanged (it is not reset to unset); a subsequent `open` on a closed
connection sets it to the connection's configured database. -/
theorem c8_close_preserves_catalog (st : DriverState) (creds : Credentials) :
    (close st).currentCatalog = st.currentCatalog ∧
    (cancelQuery st).currentCatalog = st.currentCatalog ∧
    (st.connOpen = false →
      openDriver creds true st =
        .ok { st with connOpen := true, currentCatalog := some creds.database }) := by
  refine ⟨?_, ?_, ?_⟩
  · rw [close]
    split <;> rfl
  · rw [cancelQuery]
    split
    · rfl
    · show (close st).currentCatalog = st.currentCatalog
      rw [close]
      split <;> rfl
  · intro h
    rw [openDriver, h]
    simp

/-- Witness for `c8_close_preserves_catalog` at a concrete closed state. -/
theorem c8_close_preserves_catalog_witness :
    (close ⟨some "X", false, 0⟩).currentCatalog = some "X" ∧
    (cancelQuery ⟨some "X", false, 0⟩).currentCatalog = some "X" ∧
    ((⟨some "X", false, 0⟩ : DriverState).connOpen = false →
      openDriver ⟨"DEV", 0, 0⟩ true ⟨some "X", false, 0⟩ =
        .ok { (⟨some "X", false, 0⟩ : DriverState) with
                connOpen := true, currentCatalog := some "DEV" }) :=
  c8_close_preserves_catalog ⟨some "X", false, 0⟩ ⟨"DEV", 0, 0⟩

theorem settled_mono (k : Nat) (e : QEvent) (tr : List QEvent)
    (h : settled k tr) : settled k (e :: tr) := by
  rcases h with h | h
  · exact Or.inl (List.mem_cons_of_mem e h)
  · exact Or.inr (List.mem_cons_of_mem e h)

theorem settled_start (n : Nat) (tr : List QEvent) (h : QTrace n tr) :
    ∀ k, settled k tr → QEvent.start k ∈ tr := by
  induction h with
  | nil =>
    intro k hk
    rcases hk with hk | hk <;> simp at hk
  | start hkn hnotin hprev htr ih =>
    rename_i tr' k'
    intro k hk
    have h2 : settled k tr' := by
      rcases hk with hk | hk
      · exact Or.inl (by simpa using hk)
      · exact Or.inr (by simpa using hk)
    exact List.mem_cons_of_mem _ (ih k h2)
  | settleOk hstart hnots htr ih =>
    rename_i tr' k'
    intro k hk
    rcases hk with hk | hk
    · rcases List.mem_cons.mp hk with hk | hk
      · have hkk : k = k' := by simpa using hk
        exact List.mem_cons_of_mem _ (hkk ▸ hstart)
      · exact List.mem_cons_of_mem _ (ih k (Or.inl hk))
    · have hk' : QEvent.settleTimeout k ∈ tr' := by simpa using hk
      exact List.mem_cons_of_mem _ (ih k (Or.inr hk'))
  | settleTimeout hstart hnots htr ih =>
    rename_i tr' k'
    intro k hk
    rcases hk with hk | hk
    · have hk' : QEvent.settleOk k ∈ tr' := by simpa using hk
      exact List.mem_cons_of_mem _ (ih k (Or.inl hk'))
    · rcases List.mem_cons.mp hk with hk | hk
      · have hkk : k = k' := by simpa using hk
        exact List.mem_cons_of_mem _ (hkk ▸ hstart)
      · exact List.mem_cons_of_mem _ (ih k (Or.inr hk))
  | execEnd hto hnotin htr ih =>
    rename_i tr' k'
    intro k hk
    have h2 : settled k tr' := by
      rcases hk with hk | hk
      · exact Or.inl (by simpa using hk)
      · exact Or.inr (by simpa using hk)
    exact List.mem_cons_of_mem _ (ih k h2)

theorem start_settles_predecessors (n : Nat) (tr : List QEvent)
    (h : QTrace n tr) :
    ∀ k, QEvent.start k ∈ tr → ∀ j, j < k → settled j tr := by
  induction h with
  | nil =>
    intro k hk
    simp at hk
  | start hkn hnotin hprev htr ih =>
    rename_i tr' k'
    intro k hk j hj
    rcases List.mem_cons.mp hk with hk | hk
    · have hkk : k = k' := by simpa using hk
      subst hkk
      rcases hprev with h0 | hsettled
      · omega
      · have hstartpred : QEvent.start (k - 1) ∈ tr' :=
          settled_start n tr' htr (k - 1) hsettled
        by_cases hj1 : j = k - 1
        · exact settled_mono j _ tr' (hj1 ▸ hsettled)
        · have hjlt : j < k - 1 := by omega
          exact settled_mono j _ tr' (ih (k - 1) hstartpred j hjlt)
    · exact settled_mono j _ tr' (ih k hk j hj)
  | settleOk hstart hnots htr ih =>
    rename_i tr' k'
    intro k hk j hj
    have hk' : QEvent.start k ∈ tr' := by simpa using hk
    exact settled_mono j _ _ (ih k hk' j hj)
  | settleTimeout hstart hnots htr ih =>
    rename_i tr' k'
    intro k hk j hj
    have hk' : QEvent.start k ∈ tr' := by simpa using hk
    exact settled_mono j _ _ (ih k hk' j hj)
  | execEnd hto hnotin htr ih =>
    rename_i tr' k'
    intro k hk j hj
    have hk' : QEvent.start k ∈ tr' := by simpa using hk
    exact settled_mono j _ _ (ih k hk' j hj)

/-- C3, counterexample.  The claim states in particular that at most one
statement is ever executing against the shared connection.  When a
submission settles by timeout, its `conn.execute` is not aborted (driver.ts
has no transport cancellation; the race merely stops the caller from
waiting), so the next submission starts while the previous statement is
still executing: in the reachable trace below both submission 0 and
submission 1 are executing against the connection at once. -/
theorem c3_transport_overlap_counterexample :
    QTrace 2 [QEvent.start 1, QEvent.settleTimeout 0, QEvent.start 0] ∧
    executing 0 [QEvent.start 1, QEvent.settleTimeout 0, QEvent.start 0] ∧
    executing 1 [QEvent.start 1, QEvent.settleTimeout 0, QEvent.start 0] ∧
    (0 : Nat) ≠ 1 := by
  refine ⟨?_, by decide, by decide, by decide⟩
  have h0 : QTrace 2 [QEvent.start 0] :=
    QTrace.start (by decide) (by decide) (Or.inl rfl) QTrace.nil
  have h1 : QTrace 2 [QEvent.settleTimeout 0, QEvent.start 0] :=
    QTrace.settleTimeout (by decide) (by decide) h0
  exact QTrace.start (by decide) (by decide) (Or.inr (by decide)) h1

/-- C3, amended.  Submissions through the promise chain of
`queryWithTimeout` are serialized in FIFO admission order: in every
reachable trace at most one submission is in flight (admitted but not yet
settled) at a time, and a submission starts only after every earlier
submission has settled (succeeded, failed, or timed out).  The transport
execution of a timed-out submission, however, may still be running when the
next submission starts (see the counterexample), so the at-most-one
guarantee is about submissions, not about statements on the connection. -/
theorem c3_fifo_at_most_one_in_flight (n : Nat) (tr : List QEvent)
    (h : QTrace n tr) :
    (∀ j k, inFlight j tr → inFlight k tr → j = k) ∧
    (∀ k, QEvent.start k ∈ tr → ∀ j, j < k → settled j tr) := by
  refine ⟨?_, start_settles_predecessors n tr h⟩
  intro j k hj hk
  by_contra hne
  rcases Nat.lt_or_ge j k with hlt | hge
  · exact hj.2 (start_settles_predecessors n tr h k hk.1 j hlt)
  · have hlt : k < j := by omega
    exact hk.2 (start_settles_predecessors n tr h j hj.1 k hlt)

/-- Witness for `c3_fifo_at_most_one_in_flight` on the one-submission trace
`[start 0]`. -/
theorem c3_fifo_at_most_one_in_flight_witness :
    (∀ j k, inFlight j [QEvent.start 0] → inFlight k [QEvent.start 0] → j = k) ∧
    (∀ k, QEvent.start k ∈ [QEvent.start 0] → ∀ j, j < k →
      settled j [QEvent.start 0]) :=
  c3_fifo_at_most_one_in_flight 1 [QEvent.start 0]
    (QTrace.start (by decide) (by decide) (Or.inl rfl) QTrace.nil)

/-- With an open connection and a non-null settled outcome, one execution
produces exactly one result record, carrying the statement text, flagged as
error exactly for thrown failures, and the connection stays open. -/
theorem executeQueryInternal_shape (creds : Credentials) (connectOk : Bool)
    (st : DriverState) (q : List Char) (timeoutMs : Nat) (outcome : Outcome)
    (elapsedTime : Nat) (h : st.connOpen = true) (hnn : outcome ≠ .ok none) :
    ∃ st' r, executeQueryInternal creds connectOk st q timeoutMs outcome
        elapsedTime = .ok (st', [r]) ∧
      st'.connOpen = true ∧ r.query = q ∧ r.error = isErrorOutcome outcome := by
  have hopen := openDriver_of_open creds connectOk st h
  cases outcome with
  | ok dataOpt =>
    cases dataOpt with
    | none => exact absurd rfl hnn
    | some data =>
      rw [executeQueryInternal, hopen]
      cases hm : matchSetCatalog q with
      | some nm =>
        simp only [hm]
        exact ⟨_, _, rfl, h, rfl, rfl⟩
      | none =>
        simp only [hm]
        exact ⟨_, _, rfl, h, rfl, rfl⟩
  | error err =>
    rw [executeQueryInternal, hopen]
    cases hm : matchSetCatalog q with
    | some nm =>
      simp only [hm]
      exact ⟨_, _, rfl, h, rfl, rfl⟩
    | none =>
      simp only [hm]
      exact ⟨_, _, rfl, h, rfl, rfl⟩

/-- Sequential batch execution with an open connection and no null
responses: one result per statement, in order, error-flagged exactly for
the failing statements, and every statement is executed (a failure does not
shorten the batch). -/
theorem runBatch_spec (creds : Credentials) (connectOk : Bool)
    (timeoutMs : Nat) :
    ∀ (pairs : List (List Char × Outcome × Nat)) (st : DriverState),
    st.connOpen = true →
    (∀ p ∈ pairs, p.2.1 ≠ .ok none) →
    ∃ st' res, runBatch creds connectOk timeoutMs st pairs = .ok (st', res) ∧
      st'.connOpen = true ∧
      res.length = pairs.length ∧
      ∀ i (hi : i < pairs.length) (hr : i < res.length),
        (res.get ⟨i, hr⟩).query = (pairs.get ⟨i, hi⟩).1 ∧
        (res.get ⟨i, hr⟩).error = isErrorOutcome (pairs.get ⟨i, hi⟩).2.1 := by
  intro pairs
  induction pairs with
  | nil =>
    intro st h _
    exact ⟨st, [], rfl, h, rfl, fun i hi => absurd hi (by simp)⟩
  | cons p rest ih =>
    intro st h hnn
    obtain ⟨q, outcome, elapsed⟩ := p
    obtain ⟨st1, r, hrun, hopen1, hq, herr⟩ :=
      executeQueryInternal_shape creds connectOk st q timeoutMs outcome
        elapsed h (hnn (q, outcome, elapsed) (List.mem_cons_self _ _))
    obtain ⟨st2, res2, hrest, hopen2, hlen2, hprops⟩ :=
      ih st1 hopen1 (fun p hp => hnn p (by simp [hp]))
    refine ⟨st2, r :: res2, ?_, hopen2, by simpa using hlen2, ?_⟩
    · rw [runBatch]
      simp only [hrun, hrest]
      rfl
    · intro i hi hr
      cases i with
      | zero => exact ⟨hq, herr⟩
      | succ i' =>
        have hi' : i' < rest.length := by simpa using hi
        have hr' : i' < res2.length := by simpa using hr
        exact hprops i' hi' hr'

/-- C2, counterexample.  The claim states that a multi-statement batch
returns one result per statement.  A statement whose raw response is null
contributes zero results (driver.ts lines 176-178 return `[]`): the
two-statement buffer below yields a single result. -/
theorem c2_missing_response_counterexample :
    (parse "SELECT 1; SELECT 2;".toList).length = 2 ∧
    (queryDriver ⟨"DEV", 0, 0⟩ true 30000 ⟨some "DEV", true, 0⟩
        "SELECT 1; SELECT 2;".toList
        (fun k => if k == 0 then (.ok none, 3)
          else (.ok (some (.rowsArray [[("a", "1")]])), 4))
        9).toOption.map (fun p => p.2.length) = some 1 ∧
    (1 : Nat) ≠ 2 := by
  refine ⟨rfl, rfl, ?_⟩
  decide

/-- C2, amended.  For a buffer parsing into more than one statement, when
every statement's raw response is non-null, the batch returns one result
per statement in original source order, a failing statement does not
prevent later statements from executing (the result list keeps full
length, with the failing positions error-flagged), and the trailing
summary (aggregate elapsed time and statement count) is appended to the
messages of the last result only: all earlier results are returned
unmodified. -/
theorem c2_batch_one_result_per_statement (creds : Credentials)
    (connectOk : Bool) (timeoutMs : Nat) (st : DriverState) (buf : List Char)
    (outcomes : Nat → Outcome × Nat) (totalElapsedTime : Nat)
    (h : st.connOpen = true) (hn : 1 < (parse buf).length)
    (honn : ∀ k, k < (parse buf).length → (outcomes k).1 ≠ .ok none) :
    ∃ st' raw,
      raw.length = (parse buf).length ∧
      (∀ i (hi : i < (parse buf).length) (hr : i < raw.length),
        (raw.get ⟨i, hr⟩).query = (parse buf).get ⟨i, hi⟩ ∧
        (raw.get ⟨i, hr⟩).error = isErrorOutcome (outcomes i).1) ∧
      ∀ hne : raw ≠ [],
        queryDriver creds connectOk timeoutMs st buf outcomes
            totalElapsedTime =
          .ok (st', raw.dropLast ++
            [{ raw.getLast hne with
                messages := (raw.getLast hne).messages ++
                  ["─────────────────────────────────────────",
                   s!"Total execution time for {(parse buf).length} queries: {totalElapsedTime}ms"] }]) := by
  have hpairs : ∀ p ∈ (parse buf).enum.map (fun p => (p.2, outcomes p.1)),
      p.2.1 ≠ .ok none := by
    intro p hp
    rw [List.mem_map] at hp
    obtain ⟨⟨k, q⟩, hmem, hq⟩ := hp
    have hsome := List.mem_enum_iff_getElem?.mp hmem
    have hk : k < (parse buf).length := by
      have := List.getElem?_eq_some.mp hsome
      exact this.1
    rw [← hq]
    exact honn k hk
  obtain ⟨st', res, hrun, hopen', hlen, hprops⟩ :=
    runBatch_spec creds connectOk timeoutMs
      ((parse buf).enum.map (fun p => (p.2, outcomes p.1))) st h hpairs
  have hplen : ((parse buf).enum.map (fun p => (p.2, outcomes p.1))).length =
      (parse buf).length := by
    rw [List.length_map, List.enum_length]
  refine ⟨st', res, by rw [hlen, hplen], ?_, ?_⟩
  · intro i hi hr
    have hip : i < ((parse buf).enum.map (fun p => (p.2, outcomes p.1))).length := by
      rw [hplen]
      exact hi
    have hpget : ((parse buf).enum.map (fun p => (p.2, outcomes p.1))).get ⟨i, hip⟩ =
        ((parse buf).get ⟨i, hi⟩, outcomes i) := by
      simp only [List.get_eq_getElem, List.getElem_map, List.getElem_enum]
    have := hprops i hip hr
    rw [hpget] at this
    exact this
  · intro hne
    rw [queryDriver]
    rw [if_pos hn, hrun]
    show Except.ok (st', addSummary (parse buf).length totalElapsedTime res) = _
    rw [addSummary, List.getLast?_eq_getLast res hne]

/-- Witness for `c2_batch_one_result_per_statement`: the two-statement
buffer `"SELECT 1; SELECT 2;"` where statement 0 throws and statement 1
returns a row. -/
theorem c2_batch_one_result_per_statement_witness :
    ∃ st' raw,
      raw.length = (parse sampleBuf).length ∧
      (∀ i (hi : i < (parse sampleBuf).length) (hr : i < raw.length),
        (raw.get ⟨i, hr⟩).query = (parse sampleBuf).get ⟨i, hi⟩ ∧
        (raw.get ⟨i, hr⟩).error = isErrorOutcome (sampleOutcomes i).1) ∧
      ∀ hne : raw ≠ [],
        queryDriver ⟨"DEV", 0, 0⟩ true 30000 ⟨some "DEV", true, 0⟩
            sampleBuf sampleOutcomes 9 =
          .ok (st', raw.dropLast ++
            [{ raw.getLast hne with
                messages := (raw.getLast hne).messages ++
                  ["─────────────────────────────────────────",
                   s!"Total execution time for {sampleBatchLen} queries: {9}ms"] }]) :=
  c2_batch_one_result_per_statement ⟨"DEV", 0, 0⟩ true 30000
    ⟨some "DEV", true, 0⟩ sampleBuf sampleOutcomes 9
    rfl (by decide)
    (by
      intro k hk
      rw [sampleOutcomes]
      by_cases hk0 : (k == 0) = true
      · simp [hk0]
      · simp only [Bool.not_eq_true] at hk0
        simp [hk0])

/-! ## Offset invariants of the scanner (claim C4) -/

theorem sliceL_append (l : List Char) (a b c : Nat) (h1 : a ≤ b) (h2 : b ≤ c) :
    sliceL l a b ++ sliceL l b c = sliceL l a c := by
  rw [sliceL, sliceL, sliceL]
  have hd : l.drop b = (l.drop a).drop (b - a) := by
    rw [List.drop_drop]
    congr 1
    omega
  rw [hd]
  have hsum : c - a = (b - a) + (c - b) := by omega
  rw [hsum, List.take_add]

theorem sliceL_snoc (text : List Char) (a i : Nat) (c : Char) (rest : List Char)
    (h : text.drop i = c :: rest) (ha : a ≤ i) :
    sliceL text a i ++ [c] = sliceL text a (i + 1) := by
  have hstep : sliceL text i (i + 1) = [c] := by
    rw [sliceL, h]
    simp
  rw [← hstep]
  exact sliceL_append text a i (i + 1) ha (by omega)

theorem sliceL_snoc2 (text : List Char) (a i : Nat) (c c2 : Char)
    (rest : List Char) (h : text.drop i = c :: c2 :: rest) (ha : a ≤ i) :
    sliceL text a i ++ [c, c2] = sliceL text a (i + 2) := by
  have hstep : sliceL text i (i + 2) = [c, c2] := by
    rw [sliceL, h]
    simp [List.take_succ_cons]
  rw [← hstep]
  exact sliceL_append text a i (i + 2) ha (by omega)

theorem sliceL_refl (l : List Char) (a : Nat) : sliceL l a a = [] := by
  rw [sliceL]
  simp

theorem chained_le (out : List Stmt) :
    ∀ a b, chained a out b → a ≤ b := by
  induction out with
  | nil =>
    intro a b h
    exact Nat.le_of_eq h
  | cons s rest ih =>
    intro a b h
    obtain ⟨_, hle, hrest⟩ := h
    exact Nat.le_trans hle (ih _ _ hrest)

theorem chained_append_one (out : List Stmt) :
    ∀ a b (t : List Char) (e : Nat), chained a out b → b ≤ e →
    chained a (out ++ [⟨t, b, e⟩]) e := by
  induction out with
  | nil =>
    intro a b t e h hbe
    exact ⟨h.symm, h ▸ hbe, rfl⟩
  | cons s rest ih =>
    intro a b t e h hbe
    obtain ⟨h1, h2, h3⟩ := h
    exact ⟨h1, h2, ih _ _ t e h3 hbe⟩

theorem joinSlices_eq (text : List Char) (out : List Stmt) :
    ∀ a b, chained a out b → joinSlices text out = sliceL text a b := by
  induction out with
  | nil =>
    intro a b h
    have hab : a = b := h
    rw [joinSlices]
    simp only [List.map_nil, List.flatten_nil]
    rw [← hab]
    exact (sliceL_refl text a).symm
  | cons s rest ih =>
    intro a b h
    obtain ⟨h1, h2, h3⟩ := h
    rw [joinSlices]
    simp only [List.map_cons, List.flatten_cons]
    have hrest : (rest.map (fun s => sliceL text s.startOffset s.endOffset)).flatten =
        sliceL text s.endOffset b := ih _ _ h3
    rw [show (rest.map (fun s => sliceL text s.startOffset s.endOffset)).flatten =
        joinSlices text rest from rfl] at hrest ⊢
    rw [hrest, h1]
    exact sliceL_append text a s.endOffset b (h1 ▸ h2)
      (chained_le rest _ _ h3)

/-- Every scan step falls in one of three shapes, none of which disturbs
the offset bookkeeping: append the current character (mode flags may
change), append the current character and the consumed lookahead, or emit a
statement at a semicolon (resetting the accumulator to start at `i + 1`). -/
theorem scanStep_cases (st : ScanState) (i : Nat) (c : Char) (nc : Option Char) :
    (∃ sq dq lc bc, scanStep st i c nc =
      (⟨st.currentQuery ++ [c], st.queryStartOffset, sq, dq, lc, bc, st.out⟩, false)) ∨
    (∃ c2 sq dq lc bc, nc = some c2 ∧ scanStep st i c nc =
      (⟨st.currentQuery ++ [c, c2], st.queryStartOffset, sq, dq, lc, bc, st.out⟩, true)) ∨
    (c = ';' ∧ ∃ sq dq, scanStep st i c nc =
      (⟨[], i + 1, sq, dq, st.inLineComment, st.inBlockComment,
        st.out ++ [⟨trimL (st.currentQuery ++ [c]), st.queryStartOffset, i + 1⟩]⟩,
       false)) := by
  simp only [scanStep]
  by_cases h1 : (!st.inSingleQuote && !st.inDoubleQuote && !st.inBlockComment &&
      c == '-' && nc == some '-') = true
  · rw [if_pos h1]
    exact Or.inl ⟨_, _, _, _, rfl⟩
  rw [if_neg h1]
  by_cases h2 : (st.inLineComment && c == '\n') = true
  · rw [if_pos h2]
    exact Or.inl ⟨_, _, _, _, rfl⟩
  rw [if_neg h2]
  by_cases h3 : (!st.inSingleQuote && !st.inDoubleQuote && !st.inLineComment &&
      c == '/' && nc == some '*') = true
  · rw [if_pos h3]
    exact Or.inl ⟨_, _, _, _, rfl⟩
  rw [if_neg h3]
  by_cases h4 : (st.inBlockComment && c == '*' && nc == some '/') = true
  · rw [if_pos h4]
    have hnc : nc = some '/' := by
      have h4' := h4
      simp only [Bool.and_eq_true] at h4'
      exact beq_iff_eq.mp h4'.2
    exact Or.inr (Or.inl ⟨'/', _, _, _, _, hnc, rfl⟩)
  rw [if_neg h4]
  by_cases h5 : (!st.inLineComment && !st.inBlockComment && c == '\'' &&
      !st.inDoubleQuote && st.inSingleQuote && nc == some '\'') = true
  · rw [if_pos h5]
    have hnc : nc = some '\'' := by
      have h5' := h5
      simp only [Bool.and_eq_true] at h5'
      exact beq_iff_eq.mp h5'.2
    exact Or.inr (Or.inl ⟨'\'', _, _, _, _, hnc, rfl⟩)
  rw [if_neg h5]
  by_cases h6 : (!st.inLineComment && !st.inBlockComment && c == '"' &&
      !st.inSingleQuote && st.inDoubleQuote && nc == some '"') = true
  · rw [if_pos h6]
    have hnc : nc = some '"' := by
      have h6' := h6
      simp only [Bool.and_eq_true] at h6'
      exact beq_iff_eq.mp h6'.2
    exact Or.inr (Or.inl ⟨'"', _, _, _, _, hnc, rfl⟩)
  rw [if_neg h6]
  by_cases hS : (c == ';' &&
      !(if !st.inLineComment && !st.inBlockComment && c == '\'' && !st.inDoubleQuote
        then !st.inSingleQuote else st.inSingleQuote) &&
      !(if !st.inLineComment && !st.inBlockComment && c == '"' && !st.inSingleQuote
        then !st.inDoubleQuote else st.inDoubleQuote) &&
      !st.inLineComment && !st.inBlockComment) = true
  · rw [if_pos hS]
    have hc : c = ';' := by
      have hS' := hS
      simp only [Bool.and_eq_true] at hS'
      exact beq_iff_eq.mp hS'.1.1.1.1
    subst hc
    have hpush : 0 < (trimL (st.currentQuery ++ [';'])).length :=
      List.length_pos.mpr (trimL_append_ne_nil st.currentQuery ';' (by decide))
    rw [if_pos hpush]
    exact Or.inr (Or.inr ⟨rfl, _, _, rfl⟩)
  · rw [if_neg hS]
    exact Or.inl ⟨_, _, _, _, rfl⟩

/-- End-of-input case of the offset invariant: the final fragment is either
emitted with `endOffset = text.length` or dropped because it is all
whitespace. -/
theorem scanAux_offsets_nil (text : List Char) (st : ScanState) (i : Nat)
    (hrem : text.drop i = [])
    (hi : i ≤ text.length)
    (hcur : st.currentQuery = sliceL text st.queryStartOffset i)
    (hstart : st.queryStartOffset ≤ i)
    (hch : chained 0 st.out st.queryStartOffset) :
    ∃ e, chained 0 (scanAux text st i []) e ∧ e ≤ text.length ∧
      (∀ ch ∈ text.drop e, ch.isWhitespace = true) := by
  have hieq : i = text.length :=
    Nat.le_antisymm hi (List.drop_eq_nil_iff.mp hrem)
  subst hieq
  simp only [scanAux]
  by_cases hp : (trimL st.currentQuery).length > 0
  · rw [if_pos hp]
    refine ⟨text.length, ?_, Nat.le_refl _, ?_⟩
    · exact chained_append_one st.out 0 st.queryStartOffset
        (trimL st.currentQuery) text.length hch hstart
    · rw [List.drop_length]
      simp
  · rw [if_neg hp]
    refine ⟨st.queryStartOffset, hch, hstart, ?_⟩
    have hcur' : text.drop st.queryStartOffset = st.currentQuery := by
      rw [hcur, sliceL]
      exact (List.take_of_length_le (le_of_eq (List.length_drop _ _))).symm
    intro ch hmem
    rw [hcur'] at hmem
    have hzero : (trimL st.currentQuery).length = 0 := by omega
    exact trimL_eq_nil_iff.mp (List.length_eq_zero.mp hzero) ch hmem

/-- The scan maintains the offset chain: at every point the emitted
statements partition `text[0:queryStartOffset]`, the accumulator holds
`text[queryStartOffset:i]`, and the final output chains from offset `0` to
some end `e` past which the buffer is all whitespace. -/
theorem scanAux_offsets (text : List Char) :
    ∀ (n : Nat) (rem : List Char) (st : ScanState) (i : Nat),
    rem.length ≤ n →
    text.drop i = rem →
    i ≤ text.length →
    st.currentQuery = sliceL text st.queryStartOffset i →
    st.queryStartOffset ≤ i →
    chained 0 st.out st.queryStartOffset →
    ∃ e, chained 0 (scanAux text st i rem) e ∧ e ≤ text.length ∧
      (∀ ch ∈ text.drop e, ch.isWhitespace = true) := by
  intro n
  induction n with
  | zero =>
    intro rem st i hn hrem hi hcur hstart hch
    have hnil : rem = [] := List.length_eq_zero.mp (Nat.le_zero.mp hn)
    subst hnil
    exact scanAux_offsets_nil text st i hrem hi hcur hstart hch
  | succ n ih =>
    intro rem st i hn hrem hi hcur hstart hch
    cases rem with
    | nil => exact scanAux_offsets_nil text st i hrem hi hcur hstart hch
    | cons c rest =>
      have hlen : (text.drop i).length = rest.length + 1 := by
        rw [hrem]
        rfl
      rw [List.length_drop] at hlen
      rcases scanStep_cases st i c rest.head? with
        ⟨sq, dq, lc, bc, hstep⟩ | ⟨c2, sq, dq, lc, bc, hnc, hstep⟩ |
        ⟨hc, sq, dq, hstep⟩
      · rw [scanAux, hstep]
        refine ih rest _ (i + 1) (by simpa using hn) ?_ (by omega) ?_
          (by simpa using Nat.le_succ_of_le hstart) hch
        · rw [← List.drop_drop, hrem]
          rfl
        · show st.currentQuery ++ [c] = sliceL text st.queryStartOffset (i + 1)
          rw [hcur]
          exact sliceL_snoc text st.queryStartOffset i c rest hrem hstart
      · cases rest with
        | nil => simp at hnc
        | cons d rest' =>
          have hd : d = c2 := by simpa using hnc
          subst hd
          rw [scanAux, hstep]
          have hlen' : text.length - i = rest'.length + 2 := by
            simpa using hlen
          refine ih rest' _ (i + 2) (by simp at hn ⊢; omega) ?_ (by omega) ?_
            (by simpa using Nat.le_trans hstart (by omega)) hch
          · rw [show i + 2 = i + 1 + 1 from rfl, ← List.drop_drop,
              ← List.drop_drop, hrem]
            rfl
          · show st.currentQuery ++ [c, d] = sliceL text st.queryStartOffset (i + 2)
            rw [hcur]
            exact sliceL_snoc2 text st.queryStartOffset i c d rest' hrem hstart
      · rw [scanAux, hstep]
        refine ih rest _ (i + 1) (by simpa using hn) ?_ (by omega)
          ((sliceL_refl text (i + 1)).symm) (Nat.le_refl _) ?_
        · rw [← List.drop_drop, hrem]
          rfl
        · exact chained_append_one st.out 0 st.queryStartOffset
            (trimL (st.currentQuery ++ [c])) (i + 1) hch (by omega)

theorem chained_mem_le (out : List Stmt) :
    ∀ a b, chained a out b → ∀ s ∈ out, s.startOffset ≤ s.endOffset := by
  induction out with
  | nil =>
    intro a b _ s hs
    simp at hs
  | cons t rest ih =>
    intro a b h s hs
    obtain ⟨h1, h2, h3⟩ := h
    rcases List.mem_cons.mp hs with hs | hs
    · rw [hs, h1]
      exact h2
    · exact ih _ _ h3 s hs

theorem chained_chain' (out : List Stmt) :
    ∀ a b, chained a out b →
    List.Chain' (fun x y => x.endOffset = y.startOffset) out := by
  induction out with
  | nil =>
    intro a b _
    exact List.chain'_nil
  | cons t rest ih =>
    intro a b h
    obtain ⟨h1, h2, h3⟩ := h
    cases rest with
    | nil => simp
    | cons u rest' =>
      obtain ⟨h4, h5, h6⟩ := h3
      exact List.chain'_cons.mpr ⟨h4.symm, ih _ _ ⟨h4, h5, h6⟩⟩

/-- C4.  The statements produced by the scanner have monotonically
non-decreasing, non-overlapping offset ranges: each range satisfies
`startOffset ≤ endOffset` and every range begins exactly where the previous
one ended (`chained 0 … e` additionally records that the first range starts
at offset 0).  Concatenating the buffer slices `text[startOffset:endOffset]`
of all statements in order reconstructs the prefix `text[0:e]` of the
original buffer, and everything past `e` — the final unterminated fragment
that was dropped — is whitespace (when the final fragment is emitted,
`e = text.length` and the reconstruction is the whole buffer). -/
theorem c4_offsets_partition (text : List Char) :
    (∀ s ∈ parseQueries text, s.startOffset ≤ s.endOffset) ∧
    List.Chain' (fun x y => x.endOffset = y.startOffset) (parseQueries text) ∧
    ∃ e, chained 0 (parseQueries text) e ∧ e ≤ text.length ∧
      joinSlices text (parseQueries text) = text.take e ∧
      (∀ ch ∈ text.drop e, ch.isWhitespace = true) := by
  obtain ⟨e, hch, he, hws⟩ :=
    scanAux_offsets text text.length text ⟨[], 0, false, false, false, false, []⟩ 0
      (Nat.le_refl _) (List.drop_zero text) (Nat.zero_le _)
      ((sliceL_refl text 0).symm) (Nat.le_refl _) rfl
  have hpq : parseQueries text =
      scanAux text ⟨[], 0, false, false, false, false, []⟩ 0 text := rfl
  rw [← hpq] at hch
  refine ⟨chained_mem_le _ _ _ hch, chained_chain' _ _ _ hch, e, hch, he, ?_, hws⟩
  rw [joinSlices_eq text _ 0 e hch, sliceL, List.drop_zero, Nat.sub_zero]

end Netezza
